import Mathlib

set_option maxRecDepth 100000

/-!
# Verification of RustifyDL (yt-dlp crate) against its specification

Shallow embedding of the parts of `yt-dlp/src` that the claims concern:

* `fetcher/download_manager.rs` — priority queue of download tasks, the
  consumer loop, statuses and cancellation (C1, C2, C6);
* `cache/mod.rs` — `VideoCache` (TTL metadata cache, C8, C9, C10) and
  `DownloadCache` (content-addressed file/thumbnail cache, C3, C4);
* `fetcher/mod.rs` — `Fetcher::fetch_asset` segmentation and the
  already-complete short-circuit (C5, C7).

Machine integers are embedded as `Nat` with explicit `% 2^w` where overflow
or underflow matters (the `u64` TTL subtraction, the 32-bit SHA-256
arithmetic).  File contents are `List Nat` (byte values).  SQLite tables are
association lists of rows at the SQL column level.
-/

/-! ## SHA-256 (model of the `sha2` crate as used by `DownloadCache`)

`DownloadCache::calculate_file_hash` reads the whole file and returns
`format!("{:x}", Sha256::digest(bytes))`: the lowercase hex of the SHA-256
digest.  The `sha2` crate is external to the repository, so the function is
reproduced here from the FIPS 180-4 algorithm it implements, over byte lists,
with 32-bit words as `Nat` reduced `% 2^32`. -/

def M32 : Nat := 2 ^ 32

/-- Right rotation of a 32-bit word. -/
def rotr32 (n x : Nat) : Nat := ((x >>> n) ||| (x <<< (32 - n))) % M32

/-- The SHA-256 round constants (FIPS 180-4 §4.2.2, written in decimal). -/
def shaK : List Nat :=
  [1116352408, 1899447441, 3049323471, 3921009573, 961987163,
   1508970993, 2453635748, 2870763221, 3624381080, 310598401,
   607225278, 1426881987, 1925078388, 2162078206, 2614888103,
   3248222580, 3835390401, 4022224774, 264347078, 604807628,
   770255983, 1249150122, 1555081692, 1996064986, 2554220882,
   2821834349, 2952996808, 3210313671, 3336571891, 3584528711,
   113926993, 338241895, 666307205, 773529912, 1294757372,
   1396182291, 1695183700, 1986661051, 2177026350, 2456956037,
   2730485921, 2820302411, 3259730800, 3345764771, 3516065817,
   3600352804, 4094571909, 275423344, 430227734, 506948616,
   659060556, 883997877, 958139571, 1322822218, 1537002063,
   1747873779, 1955562222, 2024104815, 2227730452, 2361852424,
   2428436474, 2756734187, 3204031479, 3329325298]

/-- The SHA-256 initial hash value (FIPS 180-4 §5.3.3, in decimal). -/
def shaH0 : List Nat :=
  [1779033703, 3144134277, 1013904242, 2773480762,
   1359893119, 2600822924, 528734635, 1541459225]

/-- Big-endian 8-byte encoding of a 64-bit value. -/
def beBytes8 (n : Nat) : List Nat :=
  [n >>> 56 % 256, n >>> 48 % 256, n >>> 40 % 256, n >>> 32 % 256,
   n >>> 24 % 256, n >>> 16 % 256, n >>> 8 % 256, n % 256]

/-- SHA-256 padding: append `0x80`, zeros to 56 mod 64, and the bit length. -/
def padMessage (msg : List Nat) : List Nat :=
  let L := msg.length
  let zeros := (64 - (L + 9) % 64) % 64
  msg ++ [0x80] ++ List.replicate zeros 0 ++ beBytes8 (L * 8)

/-- Group bytes into big-endian 32-bit words. -/
def toWords : List Nat → List Nat
  | a :: b :: c :: d :: rest => (((a * 256 + b) * 256 + c) * 256 + d) :: toWords rest
  | _ => []

/-- Split a word list into blocks of 16 words (fuel-driven for structural
recursion; the fuel is instantiated with the list length, which suffices). -/
def chunks16 : Nat → List Nat → List (List Nat)
  | 0, _ => []
  | _, [] => []
  | fuel + 1, ws => ws.take 16 :: chunks16 fuel (ws.drop 16)

/-- Extend a 16-word block to the 64-word message schedule. -/
def schedule (block : List Nat) : List Nat :=
  (List.range 48).foldl
    (fun w _t =>
      let n := w.length
      let w15 := w.getD (n - 15) 0
      let w2 := w.getD (n - 2) 0
      let w16 := w.getD (n - 16) 0
      let w7 := w.getD (n - 7) 0
      let s0 := rotr32 7 w15 ^^^ rotr32 18 w15 ^^^ (w15 >>> 3)
      let s1 := rotr32 17 w2 ^^^ rotr32 19 w2 ^^^ (w2 >>> 10)
      w ++ [(w16 + s0 + w7 + s1) % M32])
    block

/-- The eight working registers of the compression function. -/
structure Regs where
  a : Nat
  b : Nat
  c : Nat
  d : Nat
  e : Nat
  f : Nat
  g : Nat
  h : Nat

/-- One SHA-256 compression round. -/
def shaRound (w : List Nat) (r : Regs) (t : Nat) : Regs :=
  let S1 := rotr32 6 r.e ^^^ rotr32 11 r.e ^^^ rotr32 25 r.e
  let ch := (r.e &&& r.f) ^^^ ((r.e ^^^ (M32 - 1)) &&& r.g)
  let temp1 := (r.h + S1 + ch + shaK.getD t 0 + w.getD t 0) % M32
  let S0 := rotr32 2 r.a ^^^ rotr32 13 r.a ^^^ rotr32 22 r.a
  let maj := (r.a &&& r.b) ^^^ (r.a &&& r.c) ^^^ (r.b &&& r.c)
  let temp2 := (S0 + maj) % M32
  ⟨(temp1 + temp2) % M32, r.a, r.b, r.c, (r.d + temp1) % M32, r.e, r.f, r.g⟩

/-- Compress one 16-word block into the running hash state. -/
def compressBlock (hs : List Nat) (block : List Nat) : List Nat :=
  let w := schedule block
  let init : Regs :=
    ⟨hs.getD 0 0, hs.getD 1 0, hs.getD 2 0, hs.getD 3 0,
     hs.getD 4 0, hs.getD 5 0, hs.getD 6 0, hs.getD 7 0⟩
  let r := (List.range 64).foldl (shaRound w) init
  [(hs.getD 0 0 + r.a) % M32, (hs.getD 1 0 + r.b) % M32,
   (hs.getD 2 0 + r.c) % M32, (hs.getD 3 0 + r.d) % M32,
   (hs.getD 4 0 + r.e) % M32, (hs.getD 5 0 + r.f) % M32,
   (hs.getD 6 0 + r.g) % M32, (hs.getD 7 0 + r.h) % M32]

/-- The SHA-256 digest of a byte list, as eight 32-bit words. -/
def sha256Words (msg : List Nat) : List Nat :=
  let ws := toWords (padMessage msg)
  (chunks16 ws.length ws).foldl compressBlock shaH0

/-- A 32-bit word as 8 lowercase hex digits. -/
def word32Hex (n : Nat) : String :=
  String.mk
    [Nat.digitChar (n / 16 ^ 7 % 16), Nat.digitChar (n / 16 ^ 6 % 16),
     Nat.digitChar (n / 16 ^ 5 % 16), Nat.digitChar (n / 16 ^ 4 % 16),
     Nat.digitChar (n / 16 ^ 3 % 16), Nat.digitChar (n / 16 ^ 2 % 16),
     Nat.digitChar (n / 16 % 16), Nat.digitChar (n % 16)]

/-- `calculate_file_hash`: the lowercase-hex SHA-256 of the file's bytes,
as `format!("{:x}", hash)` renders the digest. -/
def sha256Hex (msg : List Nat) : String :=
  String.join ((sha256Words msg).map word32Hex)

/-! ## Download manager (`fetcher/download_manager.rs`)

The manager's shared state (`queue`, `statuses`, `tasks`, `next_id`) is
embedded as `ManagerState`; each public method and each internal event of
the consumer loop / download task becomes one atomic transition, faithful to
the full body of the corresponding Rust code.  `BinaryHeap` is modelled as
the list of its elements, with `pop` returning the greatest element under
the source's `Ord for DownloadTask`.  Progress callbacks carry no data
relevant to the claims beyond the status they write, so a task's optional
callback function is not stored. -/

/-- `DownloadPriority` with its `enum` discriminants (`Low = 0` …
`Critical = 3`). -/
inductive DownloadPriority
  | low
  | normal
  | high
  | critical
deriving DecidableEq, Repr

/-- `priority as i32`: the discriminant of the priority. -/
def DownloadPriority.toI32 : DownloadPriority → Int
  | .low => 0
  | .normal => 1
  | .high => 2
  | .critical => 3

/-- `DownloadTask` (the `progress_callback` function is omitted; only its
effect — status updates, modelled by `MEvent.tick` — matters here). -/
structure DownloadTask where
  url : String
  destination : String
  priority : DownloadPriority
  id : Nat
deriving DecidableEq, Repr

/-- `Ord for DownloadTask` (download_manager.rs lines 95-106), transcribed
exactly as written: the priority comparison puts `other` on the left,
`(other.priority as i32).cmp(&(self.priority as i32))`, and ties are broken
by `self.id.cmp(&other.id)`. -/
def DownloadTask.cmp (self other : DownloadTask) : Ordering :=
  let priorityCmp := compare other.priority.toI32 self.priority.toI32
  if priorityCmp ≠ Ordering.eq then priorityCmp
  else compare self.id other.id

/-- `BinaryHeap::pop` returns a greatest element under the `Ord` instance.
The heap is modelled by the list of its elements; the fold computes the
maximum under `DownloadTask.cmp` (unique when ids are distinct, as the
manager's id counter guarantees). -/
def heapMax : List DownloadTask → Option DownloadTask
  | [] => none
  | t :: ts =>
    some (ts.foldl (fun m x => if DownloadTask.cmp x m = Ordering.gt then x else m) t)

/-- `DownloadStatus`. -/
inductive DownloadStatus
  | queued
  | downloading (downloaded_bytes total_bytes : Nat)
  | completed
  | failed (reason : String)
  | canceled
deriving DecidableEq, Repr

/-- The terminal statuses: `Completed`, `Failed`, `Canceled`. -/
def DownloadStatus.isTerminal : DownloadStatus → Bool
  | .completed => true
  | .failed _ => true
  | .canceled => true
  | _ => false

/-- The mutable state of a `DownloadManager`: the id counter, the priority
queue, the status map, the ids with a live `JoinHandle` in `tasks`, and the
number of consumer loops handed to `tokio::spawn` so far. -/
structure ManagerState where
  nextId : Nat
  queue : List DownloadTask
  statuses : List (Nat × DownloadStatus)
  running : List Nat
  consumerSpawns : Nat
deriving DecidableEq, Repr

/-- A fresh manager (`DownloadManager::with_config`). -/
def ManagerState.init : ManagerState := ⟨0, [], [], [], 0⟩

/-- `HashMap::get` on the status map. -/
def lookupStatus : List (Nat × DownloadStatus) → Nat → Option DownloadStatus
  | [], _ => none
  | (k, v) :: rest, id => if k = id then some v else lookupStatus rest id

/-- `HashMap::insert` on the status map (replacing any previous binding). -/
def insertStatus (m : List (Nat × DownloadStatus)) (id : Nat) (st : DownloadStatus) :
    List (Nat × DownloadStatus) :=
  (id, st) :: m.filter (fun kv => kv.1 ≠ id)

/-- `DownloadManager::enqueue` / `enqueue_with_progress`: allocate the next
id, push the task, set its status to `Queued`, and call `process_queue`,
whose body unconditionally starts with `tokio::spawn` of a new consumer
loop — hence `consumerSpawns` grows by one on every call. -/
def ManagerState.enqueue (s : ManagerState) (url dest : String)
    (priority : Option DownloadPriority) : Nat × ManagerState :=
  let id := s.nextId
  let task : DownloadTask := ⟨url, dest, priority.getD .normal, id⟩
  (id,
    { s with
      nextId := id + 1
      queue := task :: s.queue
      statuses := insertStatus s.statuses id .queued
      consumerSpawns := s.consumerSpawns + 1 })

/-- `cancel`'s queue drain: rebuild the queue keeping tasks with a
different id. -/
def removeFromQueue (q : List DownloadTask) (id : Nat) : List DownloadTask :=
  q.filter (fun t => t.id ≠ id)

/-- `DownloadManager::cancel`: abort if a `JoinHandle` is in `tasks`
(marking `Canceled`); else drain the queue and report whether it shrank
(marking `Canceled` when it did); else return `false` unchanged. -/
def ManagerState.cancel (s : ManagerState) (id : Nat) : Bool × ManagerState :=
  if id ∈ s.running then
    (true,
      { s with
        running := s.running.filter (fun j => j ≠ id)
        statuses := insertStatus s.statuses id .canceled })
  else
    let newQueue := removeFromQueue s.queue id
    if newQueue.length < s.queue.length then
      (true, { s with queue := newQueue, statuses := insertStatus s.statuses id .canceled })
    else
      (false, s)

/-- The method-granular events acting on a manager: the public
enqueue/cancel calls, one consumer-loop iteration dispatching the popped
task (`process_queue` lines 424-530), a progress callback of a running
download, and a running download finishing with success or failure.  Each
event fuses the several lock scopes of the corresponding code into one
step; this coarse view carries the spawn counting (C2) and queue ordering
(C1).  The lock-scope interleavings inside the completion and dispatch
paths — where each critical section is a separate step — are modelled
below by `FineState` / `FEvent`. -/
inductive MEvent
  | enqueue (url dest : String) (priority : Option DownloadPriority)
  | dispatch
  | tick (id downloaded total : Nat)
  | complete (id : Nat)
  | fail (id : Nat) (reason : String)
  | cancel (id : Nat)

/-- One atomic step of the manager. -/
def ManagerState.step (s : ManagerState) : MEvent → ManagerState
  | .enqueue url dest p => (s.enqueue url dest p).2
  | .dispatch =>
    match heapMax s.queue with
    | none => s
    | some t =>
      { s with
        queue := removeFromQueue s.queue t.id
        statuses := insertStatus s.statuses t.id (.downloading 0 0)
        running := t.id :: s.running }
  | .tick id d tot =>
    if id ∈ s.running then
      { s with statuses := insertStatus s.statuses id (.downloading d tot) }
    else s
  | .complete id =>
    if id ∈ s.running then
      { s with
        statuses := insertStatus s.statuses id .completed
        running := s.running.filter (fun j => j ≠ id) }
    else s
  | .fail id reason =>
    if id ∈ s.running then
      { s with
        statuses := insertStatus s.statuses id (.failed reason)
        running := s.running.filter (fun j => j ≠ id) }
    else s
  | .cancel id => (s.cancel id).2

/-- States reachable from a fresh manager. -/
inductive Reachable : ManagerState → Prop
  | init : Reachable ManagerState.init
  | step (s : ManagerState) (e : MEvent) : Reachable s → Reachable (s.step e)

/-- Run a sequence of events. -/
def applyTrace (s : ManagerState) (es : List MEvent) : ManagerState :=
  es.foldl ManagerState.step s

/-- The number of enqueue calls in a trace. -/
def countEnqueues (es : List MEvent) : Nat :=
  (es.filter fun e => match e with | .enqueue _ _ _ => true | _ => false).length

/-- Lock-scope view of the manager, for the completion/cancellation race.
Each event below is ONE critical section of the source, so the schedules
between the spawned download task's status write (lines 504-517, statuses
lock) and its own `tasks.remove` (lines 519-521, tasks lock), and around
the consumer's later `tasks.insert` (lines 527-530, tasks lock), are all
expressible.  `tasks` is the content of the `JoinHandle` map; `launched`,
`stored`, `outcomeWritten`, `selfRemoved` and `aborted` record which
critical sections of each task's lifecycle have executed (the download
task runs concurrently with the consumer that spawned it, and `abort`
stops it at any await point). -/
structure FineState where
  nextId : Nat
  queue : List DownloadTask
  statuses : List (Nat × DownloadStatus)
  tasks : List Nat
  launched : List Nat
  stored : List Nat
  outcomeWritten : List Nat
  selfRemoved : List Nat
  aborted : List Nat
deriving DecidableEq, Repr

/-- A fresh manager, lock-scope view. -/
def FineState.init : FineState := ⟨0, [], [], [], [], [], [], [], []⟩

/-- `DownloadManager::cancel` on the lock-scope state: `tasks.remove` under
the tasks lock — a present handle means abort, mark `Canceled`, return
`true` — else the queue drain, else `false`. -/
def FineState.cancelF (s : FineState) (id : Nat) : Bool × FineState :=
  if id ∈ s.tasks then
    (true,
      { s with
        tasks := s.tasks.filter (fun j => j ≠ id)
        aborted := id :: s.aborted
        statuses := insertStatus s.statuses id .canceled })
  else
    let newQueue := removeFromQueue s.queue id
    if newQueue.length < s.queue.length then
      (true, { s with queue := newQueue, statuses := insertStatus s.statuses id .canceled })
    else
      (false, s)

/-- The critical sections: `enqueue`; the consumer-loop iteration up to and
including `tokio::spawn` of the download (pop, mark `Downloading`, launch);
the consumer's separate `tasks.insert` of the handle; a progress tick of a
live download; the download task's terminal-status write (its first lock
scope); the download task's own `tasks.remove` (its second lock scope);
and `cancel`. -/
inductive FEvent
  | enqueue (url dest : String) (priority : Option DownloadPriority)
  | dispatch
  | storeHandle (id : Nat)
  | tick (id downloaded total : Nat)
  | finishOk (id : Nat)
  | finishErr (id : Nat) (reason : String)
  | finishRemove (id : Nat)
  | cancel (id : Nat)

/-- One critical section of the manager.  Guards state when each section
can run: the handle is stored once per launched task; ticks and the
outcome write come from a launched download that has neither written its
outcome nor been aborted; the self-removal follows the outcome write. -/
def FineState.step (s : FineState) : FEvent → FineState
  | .enqueue url dest p =>
    { s with
      nextId := s.nextId + 1
      queue := (⟨url, dest, p.getD .normal, s.nextId⟩ : DownloadTask) :: s.queue
      statuses := insertStatus s.statuses s.nextId .queued }
  | .dispatch =>
    match heapMax s.queue with
    | none => s
    | some t =>
      { s with
        queue := removeFromQueue s.queue t.id
        statuses := insertStatus s.statuses t.id (.downloading 0 0)
        launched := t.id :: s.launched }
  | .storeHandle id =>
    if id ∈ s.launched ∧ id ∉ s.stored then
      { s with tasks := id :: s.tasks, stored := id :: s.stored }
    else s
  | .tick id d tot =>
    if id ∈ s.launched ∧ id ∉ s.outcomeWritten ∧ id ∉ s.aborted then
      { s with statuses := insertStatus s.statuses id (.downloading d tot) }
    else s
  | .finishOk id =>
    if id ∈ s.launched ∧ id ∉ s.outcomeWritten ∧ id ∉ s.aborted then
      { s with
        statuses := insertStatus s.statuses id .completed
        outcomeWritten := id :: s.outcomeWritten }
    else s
  | .finishErr id reason =>
    if id ∈ s.launched ∧ id ∉ s.outcomeWritten ∧ id ∉ s.aborted then
      { s with
        statuses := insertStatus s.statuses id (.failed reason)
        outcomeWritten := id :: s.outcomeWritten }
    else s
  | .finishRemove id =>
    if id ∈ s.outcomeWritten ∧ id ∉ s.selfRemoved ∧ id ∉ s.aborted then
      { s with
        tasks := s.tasks.filter (fun j => j ≠ id)
        selfRemoved := id :: s.selfRemoved }
    else s
  | .cancel id => (s.cancelF id).2

/-- Run a sequence of critical sections. -/
def applyFineTrace (s : FineState) (es : List FEvent) : FineState :=
  es.foldl FineState.step s

/-! ## Caches (`cache/mod.rs`)

Both caches check freshness with the unguarded `u64` subtraction
`now - cached_at <= self.ttl`; `u64Sub` embeds that subtraction with
release-mode (wrapping) semantics.  SQLite tables are association lists of
rows at the SQL column level; `INSERT OR REPLACE` replaces the row with the
same primary key, plain `INSERT` fails on a duplicate primary key.  The
`video_json` column always holds `serde_json::to_string` of the metadata
that `put` received, and `serde_json::from_str` parses that text back, so
the payload is carried opaquely as the stored string. -/

def U64 : Nat := 2 ^ 64

/-- The `u64` subtraction `now - cached_at` of every TTL check, wrapping on
underflow. -/
def u64Sub (a b : Nat) : Nat := (U64 + a % U64 - b % U64) % U64

/-- Wrapping `u64` addition. -/
def u64Add (a b : Nat) : Nat := (a + b) % U64

/-- Wrapping `u64` multiplication. -/
def u64Mul (a b : Nat) : Nat := (a * b) % U64

/-- A row of the `videos` table. -/
structure VideoRow where
  id : String
  title : String
  url : String
  video_json : String
  cached_at : Nat
deriving DecidableEq, Repr

/-- `VideoCache`: the `videos` table plus the configured TTL. -/
structure VideoCache where
  rows : List VideoRow
  ttl : Nat
deriving DecidableEq, Repr

/-- `SELECT ... FROM videos WHERE url = ?` (first matching row). -/
def findByUrl (rows : List VideoRow) (url : String) : Option VideoRow :=
  rows.find? fun r => r.url == url

/-- `VideoCache::get` at reading time `now`: `None` when no row matches the
URL, `None` when `now - cached_at > ttl`, else the stored metadata. -/
def VideoCache.get (c : VideoCache) (url : String) (now : Nat) : Option String :=
  match findByUrl c.rows url with
  | none => none
  | some row => if u64Sub now row.cached_at ≤ c.ttl then some row.video_json else none

/-- `VideoCache::put`: `INSERT OR REPLACE` keyed on the id, stamping
`cached_at` with the current clock. -/
def VideoCache.put (c : VideoCache) (id title url vjson : String) (now : Nat) :
    VideoCache :=
  { c with rows := ⟨id, title, url, vjson, now⟩ :: c.rows.filter fun r => r.id ≠ id }

/-- `crate::error::Error` as `get_by_id` uses it: the `FormatNotFound`
variant carrying its message. -/
inductive CacheError
  | formatNotFound (msg : String)
deriving DecidableEq, Repr

/-- `VideoCache::get_by_id`: `Ok` with the row when present and fresh, a
"has expired in cache" `FormatNotFound` error when present but stale, a
"not found in cache" `FormatNotFound` error when absent. -/
def VideoCache.get_by_id (c : VideoCache) (id : String) (now : Nat) :
    Except CacheError VideoRow :=
  match c.rows.find? (fun r => r.id == id) with
  | some row =>
    if u64Sub now row.cached_at ≤ c.ttl then Except.ok row
    else Except.error (.formatNotFound ("Video with ID " ++ id ++ " has expired in cache"))
  | none => Except.error (.formatNotFound ("Video with ID " ++ id ++ " not found in cache"))

/-- `CachedType`. -/
inductive CachedType
  | format
  | thumbnail
  | other
deriving DecidableEq, Repr

/-- `serde_json::to_string` of a `CachedType` unit variant: the quoted
variant name, as stored in the `file_type` column. -/
def cachedTypeJson : CachedType → String
  | .format => "\"Format\""
  | .thumbnail => "\"Thumbnail\""
  | .other => "\"Other\""

/-- The dot-separated components of a name (`split('.')` semantics), over
the character list. -/
def splitDots : List Char → List (List Char)
  | [] => [[]]
  | c :: rest =>
    let r := splitDots rest
    if c = '.' then [] :: r
    else
      match r with
      | [] => [[c]]
      | g :: gs => (c :: g) :: gs

/-- `Path::extension` of a file name: the part after the last dot, absent
when there is no dot or the only dot leads a hidden file name. -/
def pathExtension (name : String) : Option String :=
  match (splitDots name.data).map String.mk with
  | [] => none
  | [_] => none
  | first :: rest => if first = "" && rest.length == 1 then none else rest.getLast?

/-- `str::to_lowercase` on the ASCII strings the MIME match inspects. -/
def asciiLower (s : String) : String := String.mk (s.data.map Char.toLower)

/-- `DownloadCache::determine_mime_type`, applied to the source path. -/
def determine_mime_type (file_path : String) : String :=
  let ext := asciiLower ((pathExtension file_path).getD "")
  if ext = "mp4" then "video/mp4"
  else if ext = "webm" then "video/webm"
  else if ext = "mp3" then "audio/mpeg"
  else if ext = "m4a" then "audio/mp4"
  else if ext = "jpg" ∨ ext = "jpeg" then "image/jpeg"
  else if ext = "png" then "image/png"
  else "application/octet-stream"

/-- A row of the `files` table, at SQL column level (the quality and codec
preference columns hold the serde JSON text exactly as stored). -/
structure FileRow where
  id : String
  filename : String
  relative_path : String
  video_id : Option String
  file_type : String
  format_id : Option String
  format_json : Option String
  video_quality : Option String
  audio_quality : Option String
  video_codec : Option String
  audio_codec : Option String
  filesize : Nat
  mime_type : String
  cached_at : Nat
deriving DecidableEq, Repr

/-- A row of the `thumbnails` table. -/
structure ThumbRow where
  id : String
  filename : String
  relative_path : String
  video_id : String
  filesize : Nat
  mime_type : String
  width : Option Nat
  height : Option Nat
  cached_at : Nat
deriving DecidableEq, Repr

/-- `DownloadCache`: the two tables, the TTL, the set of relative paths
present under `cache_dir` (`blobs`), and one log entry per `fs::copy`
performed (`writeLog`). -/
structure DownloadCache where
  files : List FileRow
  thumbnails : List ThumbRow
  ttl : Nat
  blobs : List String
  writeLog : List String
deriving DecidableEq, Repr

/-- `DownloadCache::new` over an empty cache directory. -/
def DownloadCache.new (ttl : Nat) : DownloadCache := ⟨[], [], ttl, [], []⟩

/-- The `format: Option<&Format>` argument — its `format_id` and its serde
serialization are all the put uses. -/
structure FormatArg where
  format_id : String
  format_json : String
deriving DecidableEq, Repr

/-- The `thumbnail: &Thumbnail` argument — only `width`/`height` are
used. -/
structure ThumbnailArg where
  width : Option Nat
  height : Option Nat
deriving DecidableEq, Repr

/-- `DownloadCache::put_file_with_preferences`: hash the source bytes, copy
the blob to `files/<hash>.<ext>` ONLY IF that path does not already exist
(`if !dest_path.exists()`), then `INSERT OR REPLACE` the row keyed by the
hash.  The source file is given as its path (for the MIME type, which the
code derives from `source_path`) and its byte content. -/
def DownloadCache.put_file_with_preferences (c : DownloadCache)
    (source_path : String) (source_content : List Nat) (filename : String)
    (video_id : Option String) (format : Option FormatArg)
    (video_quality audio_quality video_codec audio_codec : Option String)
    (now : Nat) : FileRow × DownloadCache :=
  let file_hash := sha256Hex source_content
  let filesize := source_content.length
  let mime_type := determine_mime_type source_path
  let extension := (pathExtension filename).getD ""
  let relative_path := "files/" ++ file_hash ++ "." ++ extension
  let copied :=
    if relative_path ∈ c.blobs then c
    else { c with
      blobs := relative_path :: c.blobs
      writeLog := c.writeLog ++ [relative_path] }
  let ftff :=
    match format with
    | some f => (cachedTypeJson .format, some f.format_id, some f.format_json)
    | none => (cachedTypeJson .other, (none : Option String), (none : Option String))
  let row : FileRow :=
    ⟨file_hash, filename, relative_path, video_id, ftff.1, ftff.2.1, ftff.2.2,
     video_quality, audio_quality, video_codec, audio_codec, filesize, mime_type, now⟩
  (row, { copied with files := row :: copied.files.filter fun r => r.id ≠ file_hash })

/-- `DownloadCache::put_file`: `put_file_with_preferences` with no
preferences. -/
def DownloadCache.put_file (c : DownloadCache)
    (source_path : String) (source_content : List Nat) (filename : String)
    (video_id : Option String) (format : Option FormatArg) (now : Nat) :
    FileRow × DownloadCache :=
  c.put_file_with_preferences source_path source_content filename video_id format
    none none none none now

/-- `DownloadCache::put_thumbnail`: hash, copy the blob to
`thumbnails/<hash>.<ext>` UNCONDITIONALLY (`tokio::fs::copy` with no
existence guard, unlike `put_file_with_preferences`), then plain `INSERT`
into `thumbnails` — which fails with a primary-key constraint error when a
row with the same hash already exists, the copy having already been
performed. -/
def DownloadCache.put_thumbnail (c : DownloadCache)
    (source_path : String) (source_content : List Nat) (filename : String)
    (video_id : String) (thumbnail : ThumbnailArg) (now : Nat) :
    Except String ThumbRow × DownloadCache :=
  let file_hash := sha256Hex source_content
  let filesize := source_content.length
  let mime_type := determine_mime_type source_path
  let extension := (pathExtension filename).getD ""
  let relative_path := "thumbnails/" ++ file_hash ++ "." ++ extension
  let copied := { c with
    blobs := if relative_path ∈ c.blobs then c.blobs else relative_path :: c.blobs
    writeLog := c.writeLog ++ [relative_path] }
  let row : ThumbRow :=
    ⟨file_hash, filename, relative_path, video_id, filesize, mime_type,
     thumbnail.width, thumbnail.height, now⟩
  if copied.thumbnails.any (fun r => r.id == file_hash) then
    (Except.error "UNIQUE constraint failed: thumbnails.id", copied)
  else
    (Except.ok row, { copied with thumbnails := row :: copied.thumbnails })

/-- `DownloadCache::get_by_hash`: the `files` row by primary key, the TTL
check with the unguarded u64 subtraction, then the on-disk existence
re-check; a hit returns the row and the path. -/
def DownloadCache.get_by_hash (c : DownloadCache) (file_hash : String) (now : Nat) :
    Option (FileRow × String) :=
  match c.files.find? (fun r => r.id == file_hash) with
  | none => none
  | some row =>
    if u64Sub now row.cached_at ≤ c.ttl then
      if row.relative_path ∈ c.blobs then some (row, row.relative_path) else none
    else none

/-- `DownloadCache::get_thumbnail_by_video_id` (cache/mod.rs 1234-1297).
Note the query reads the `files` table — `SELECT ... FROM files WHERE
video_id = ? AND file_type = ? AND format_id = 'thumbnail'` with
`file_type` bound to `serde_json::to_string(&CachedType::Thumbnail)` — not
the `thumbnails` table that `put_thumbnail` writes. -/
def DownloadCache.get_thumbnail_by_video_id (c : DownloadCache) (video_id : String)
    (now : Nat) : Option (FileRow × String) :=
  match c.files.find? (fun r =>
      r.video_id == some video_id
        && r.file_type == cachedTypeJson .thumbnail
        && r.format_id == some "thumbnail") with
  | none => none
  | some row =>
    if u64Sub now row.cached_at ≤ c.ttl then
      if row.relative_path ∈ c.blobs then some (row, row.relative_path) else none
    else none

/-! ## Fetcher (`fetcher/mod.rs`)

`fetch_asset` is embedded as the sequence of network requests it issues.
Filesystem state is abstracted to the destination's current size, the
segment indices recorded in the `<dest>.parts` file, and the per-segment
result of `download_segment`'s non-zero-sample resume heuristic; the
network transfers themselves are modelled as succeeding, which is the only
branch the claims exercise. -/

/-- A network request issued by the fetcher. -/
inductive NetRequest
  | head
  | rangeGet (startByte endByte : Nat)
  | simpleGet (resumeFrom : Option Nat)
deriving DecidableEq, Repr

/-- What the remote server's HEAD response advertises. -/
structure RemoteEnv where
  acceptRanges : Bool
  contentLength : Option Nat
deriving DecidableEq, Repr

/-- The destination's state on disk. -/
structure DestState where
  size : Option Nat
  partsFile : List Nat
  segmentLooksNonEmpty : Nat → Bool

/-- `u64::div_ceil` as the standard library computes it. -/
def divCeil (a b : Nat) : Nat := a / b + if a % b = 0 then 0 else 1

/-- The segment ranges of `fetch_asset` (fetcher/mod.rs 264-271): for
`i in 0..content_length.div_ceil(segment_size)`, the inclusive byte range
`(start, end)` with `start = i * segment_size` and
`end = min(start + segment_size - 1, content_length - 1)`, every operation
performed in `u64` — wrapping, release-mode semantics. -/
def segmentRanges (content_length segment_size : Nat) : List (Nat × Nat) :=
  (List.range (divCeil content_length segment_size)).map fun i =>
    let start := u64Mul i segment_size
    (start,
     min (u64Sub (u64Add start segment_size) 1) (u64Sub content_length 1))

/-- `Fetcher::fetch_asset_simple`: a single GET, resuming from the current
size when the destination exists non-empty. -/
def fetchAssetSimple (dest : DestState) : List NetRequest :=
  match dest.size with
  | some n => if n > 0 then [NetRequest.simpleGet (some n)] else [NetRequest.simpleGet none]
  | none => [NetRequest.simpleGet none]

/-- The network requests of `Fetcher::fetch_asset`: always the HEAD first;
without `accept-ranges` or `content-length` the simple single-GET fallback;
then, if the destination's size already equals the content length, success
with no further request; otherwise one range GET per segment that is
neither recorded in the `.parts` file (consulted only when the destination
file exists) nor skipped by the non-zero-sample heuristic. -/
def fetchAssetRequests (cfg_segment_size : Nat) (env : RemoteEnv) (dest : DestState) :
    List NetRequest :=
  NetRequest.head ::
  (if env.acceptRanges = false then fetchAssetSimple dest
   else match env.contentLength with
   | none => fetchAssetSimple dest
   | some content_length =>
     if dest.size = some content_length then []
     else
       let ranges := segmentRanges content_length cfg_segment_size
       let toDownload := ranges.enum.filter fun p =>
         !(dest.size.isSome && p.1 ∈ dest.partsFile)
       (toDownload.filter fun p => !dest.segmentLooksNonEmpty p.1).map fun p =>
         NetRequest.rangeGet p.2.1 p.2.2)

/-- Sanity check of the hash model against the FIPS 180-4 test vector:
the digest of `"abc"`. -/
theorem sha256Hex_abc :
    sha256Hex [97, 98, 99] =
      "ba7816bf8f01cfea414140de5dae2223b00361a396177a9cb410ff61f20015ad" := by
  decide

theorem lookup_insert_self (m : List (Nat × DownloadStatus)) (id : Nat) (st : DownloadStatus) :
    lookupStatus (insertStatus m id st) id = some st := by
  simp [insertStatus, lookupStatus]

theorem lookup_filter_ne (m : List (Nat × DownloadStatus)) (id j : Nat) (h : j ≠ id) :
    lookupStatus (m.filter fun kv => kv.1 ≠ id) j = lookupStatus m j := by
  induction m with
  | nil => rfl
  | cons kv rest ih =>
    simp only [ne_eq, decide_not] at ih ⊢
    rw [List.filter_cons]
    by_cases hk : kv.1 = id
    · have hkj : kv.1 ≠ j := by omega
      simp [hk, lookupStatus, hkj, h, Ne.symm h, ih]
    · by_cases hj : kv.1 = j
      · simp [hk, lookupStatus, hj, h, Ne.symm h]
      · simp [hk, lookupStatus, hj, h, Ne.symm h, ih]

theorem lookup_insert_ne (m : List (Nat × DownloadStatus)) (id j : Nat) (st : DownloadStatus)
    (h : j ≠ id) :
    lookupStatus (insertStatus m id st) j = lookupStatus m j := by
  have h' : id ≠ j := fun he => h he.symm
  simp only [insertStatus, lookupStatus, if_neg h']
  exact lookup_filter_ne m id j h

theorem foldl_choice_mem (f : DownloadTask → DownloadTask → DownloadTask)
    (hf : ∀ m x, f m x = m ∨ f m x = x) :
    ∀ (ts : List DownloadTask) (m : DownloadTask), ts.foldl f m = m ∨ ts.foldl f m ∈ ts := by
  intro ts
  induction ts with
  | nil => intro m; left; rfl
  | cons x rest ih =>
    intro m
    rcases ih (f m x) with h | h
    · rcases hf m x with h2 | h2
      · left; rw [List.foldl_cons, h, h2]
      · right; rw [List.foldl_cons, h, h2]; exact List.mem_cons_self x rest
    · right; rw [List.foldl_cons]; exact List.mem_cons_of_mem x h

/-- The popped task is an element of the queue. -/
theorem heapMax_mem (q : List DownloadTask) (t : DownloadTask) (h : heapMax q = some t) :
    t ∈ q := by
  cases q with
  | nil => simp [heapMax] at h
  | cons x rest =>
    simp only [heapMax, Option.some.injEq] at h
    have := foldl_choice_mem
      (fun m y => if DownloadTask.cmp y m = Ordering.gt then y else m)
      (fun m y => by by_cases hc : DownloadTask.cmp y m = Ordering.gt <;> simp [hc])
      rest x
    rcases this with h2 | h2
    · rw [h2] at h; rw [← h]; exact List.mem_cons_self x rest
    · rw [← h]; exact List.mem_cons_of_mem x h2

/-- The inductive invariant of the manager: tasks in the queue have status
`Queued`, ids with a live `JoinHandle` have status `Downloading`, and every
id appearing in the status map was allocated below the id counter. -/
def MInv (s : ManagerState) : Prop :=
  (∀ t ∈ s.queue, lookupStatus s.statuses t.id = some .queued) ∧
  (∀ id ∈ s.running, ∃ d tot, lookupStatus s.statuses id = some (.downloading d tot)) ∧
  (∀ id st, lookupStatus s.statuses id = some st → id < s.nextId)

theorem filter_shrank {α : Type} {q : List α} {p : α → Bool}
    (h : (q.filter p).length < q.length) : ∃ t ∈ q, p t = false := by
  by_contra hc
  push_neg at hc
  have he : q.filter p = q := List.filter_eq_self.mpr fun a ha => by
    cases hp : p a
    · exact absurd hp (hc a ha)
    · rfl
  rw [he] at h
  exact lt_irrefl _ h

theorem MInv_step (s : ManagerState) (e : MEvent) (hI : MInv s) : MInv (s.step e) := by
  obtain ⟨hq, hr, hn⟩ := hI
  cases e with
  | enqueue url dest p =>
    show MInv { s with
      nextId := s.nextId + 1
      queue := (⟨url, dest, p.getD .normal, s.nextId⟩ : DownloadTask) :: s.queue
      statuses := insertStatus s.statuses s.nextId .queued
      consumerSpawns := s.consumerSpawns + 1 }
    refine ⟨?_, ?_, ?_⟩
    · intro t ht
      rw [List.mem_cons] at ht
      rcases ht with rfl | ht
      · exact lookup_insert_self _ _ _
      · have hlt := hn _ _ (hq t ht)
        rw [lookup_insert_ne _ _ _ _ (by omega)]
        exact hq t ht
    · intro id hid
      obtain ⟨d, tot, hd⟩ := hr id hid
      have hlt := hn _ _ hd
      exact ⟨d, tot, by rw [lookup_insert_ne _ _ _ _ (by omega)]; exact hd⟩
    · intro id st hst
      by_cases hid : id = s.nextId
      · show id < s.nextId + 1
        omega
      · rw [lookup_insert_ne _ _ _ _ hid] at hst
        have := hn _ _ hst
        show id < s.nextId + 1
        omega
  | dispatch =>
    show MInv (match heapMax s.queue with
      | none => s
      | some t => { s with
          queue := removeFromQueue s.queue t.id
          statuses := insertStatus s.statuses t.id (.downloading 0 0)
          running := t.id :: s.running })
    cases hpop : heapMax s.queue with
    | none => exact ⟨hq, hr, hn⟩
    | some t =>
      have htq : t ∈ s.queue := heapMax_mem _ _ hpop
      have htst : lookupStatus s.statuses t.id = some .queued := hq t htq
      refine ⟨?_, ?_, ?_⟩
      · intro t' ht'
        simp only [removeFromQueue, List.mem_filter, decide_eq_true_eq] at ht'
        obtain ⟨ht'q, ht'ne⟩ := ht'
        rw [lookup_insert_ne _ _ _ _ ht'ne]
        exact hq t' ht'q
      · intro id hid
        rw [List.mem_cons] at hid
        rcases hid with rfl | hid
        · exact ⟨0, 0, lookup_insert_self _ _ _⟩
        · obtain ⟨d, tot, hd⟩ := hr id hid
          have hne : id ≠ t.id := fun he => by rw [he, htst] at hd; exact absurd hd (by simp)
          exact ⟨d, tot, by rw [lookup_insert_ne _ _ _ _ hne]; exact hd⟩
      · intro id st hst
        by_cases hid : id = t.id
        · rw [hid]; exact hn _ _ htst
        · rw [lookup_insert_ne _ _ _ _ hid] at hst
          exact hn _ _ hst
  | tick id d tot =>
    show MInv (if id ∈ s.running then
        { s with statuses := insertStatus s.statuses id (.downloading d tot) } else s)
    by_cases hid : id ∈ s.running
    · obtain ⟨d0, t0, hd0⟩ := hr id hid
      rw [if_pos hid]
      refine ⟨?_, ?_, ?_⟩
      · intro t ht
        have hne : t.id ≠ id := fun he => by
          have := hq t ht; rw [he, hd0] at this; exact absurd this (by simp)
        rw [lookup_insert_ne _ _ _ _ hne]
        exact hq t ht
      · intro id' hid'
        by_cases he : id' = id
        · exact ⟨d, tot, by rw [he]; exact lookup_insert_self _ _ _⟩
        · obtain ⟨d1, t1, hd1⟩ := hr id' hid'
          exact ⟨d1, t1, by rw [lookup_insert_ne _ _ _ _ he]; exact hd1⟩
      · intro id' st hst
        by_cases he : id' = id
        · rw [he]; exact hn _ _ hd0
        · rw [lookup_insert_ne _ _ _ _ he] at hst
          exact hn _ _ hst
    · rw [if_neg hid]; exact ⟨hq, hr, hn⟩
  | complete id =>
    show MInv (if id ∈ s.running then
        { s with statuses := insertStatus s.statuses id .completed
                 running := s.running.filter (fun j => j ≠ id) } else s)
    by_cases hid : id ∈ s.running
    · obtain ⟨d0, t0, hd0⟩ := hr id hid
      rw [if_pos hid]
      refine ⟨?_, ?_, ?_⟩
      · intro t ht
        have hne : t.id ≠ id := fun he => by
          have := hq t ht; rw [he, hd0] at this; exact absurd this (by simp)
        rw [lookup_insert_ne _ _ _ _ hne]
        exact hq t ht
      · intro id' hid'
        simp only [List.mem_filter, decide_eq_true_eq] at hid'
        obtain ⟨hid'r, hid'ne⟩ := hid'
        obtain ⟨d1, t1, hd1⟩ := hr id' hid'r
        exact ⟨d1, t1, by rw [lookup_insert_ne _ _ _ _ hid'ne]; exact hd1⟩
      · intro id' st hst
        by_cases he : id' = id
        · rw [he]; exact hn _ _ hd0
        · rw [lookup_insert_ne _ _ _ _ he] at hst
          exact hn _ _ hst
    · rw [if_neg hid]; exact ⟨hq, hr, hn⟩
  | fail id reason =>
    show MInv (if id ∈ s.running then
        { s with statuses := insertStatus s.statuses id (.failed reason)
                 running := s.running.filter (fun j => j ≠ id) } else s)
    by_cases hid : id ∈ s.running
    · obtain ⟨d0, t0, hd0⟩ := hr id hid
      rw [if_pos hid]
      refine ⟨?_, ?_, ?_⟩
      · intro t ht
        have hne : t.id ≠ id := fun he => by
          have := hq t ht; rw [he, hd0] at this; exact absurd this (by simp)
        rw [lookup_insert_ne _ _ _ _ hne]
        exact hq t ht
      · intro id' hid'
        simp only [List.mem_filter, decide_eq_true_eq] at hid'
        obtain ⟨hid'r, hid'ne⟩ := hid'
        obtain ⟨d1, t1, hd1⟩ := hr id' hid'r
        exact ⟨d1, t1, by rw [lookup_insert_ne _ _ _ _ hid'ne]; exact hd1⟩
      · intro id' st hst
        by_cases he : id' = id
        · rw [he]; exact hn _ _ hd0
        · rw [lookup_insert_ne _ _ _ _ he] at hst
          exact hn _ _ hst
    · rw [if_neg hid]; exact ⟨hq, hr, hn⟩
  | cancel id =>
    show MInv (s.cancel id).2
    unfold ManagerState.cancel
    by_cases hid : id ∈ s.running
    · obtain ⟨d0, t0, hd0⟩ := hr id hid
      rw [if_pos hid]
      refine ⟨?_, ?_, ?_⟩
      · intro t ht
        have hne : t.id ≠ id := fun he => by
          have := hq t ht; rw [he, hd0] at this; exact absurd this (by simp)
        rw [lookup_insert_ne _ _ _ _ hne]
        exact hq t ht
      · intro id' hid'
        simp only [List.mem_filter, decide_eq_true_eq] at hid'
        obtain ⟨hid'r, hid'ne⟩ := hid'
        obtain ⟨d1, t1, hd1⟩ := hr id' hid'r
        exact ⟨d1, t1, by rw [lookup_insert_ne _ _ _ _ hid'ne]; exact hd1⟩
      · intro id' st hst
        by_cases he : id' = id
        · rw [he]; exact hn _ _ hd0
        · rw [lookup_insert_ne _ _ _ _ he] at hst
          exact hn _ _ hst
    · rw [if_neg hid]
      by_cases hrm : (removeFromQueue s.queue id).length < s.queue.length
      · obtain ⟨t0, ht0q, ht0id⟩ := filter_shrank hrm
        simp only [decide_eq_false_iff_not, not_not] at ht0id
        have hst0 : lookupStatus s.statuses id = some .queued := by
          have := hq t0 ht0q; rw [ht0id] at this; exact this
        rw [if_pos hrm]
        refine ⟨?_, ?_, ?_⟩
        · intro t ht
          simp only [removeFromQueue, List.mem_filter, decide_eq_true_eq] at ht
          obtain ⟨htq, htne⟩ := ht
          rw [lookup_insert_ne _ _ _ _ htne]
          exact hq t htq
        · intro id' hid'
          obtain ⟨d1, t1, hd1⟩ := hr id' hid'
          have hne : id' ≠ id := fun he => by rw [he, hst0] at hd1; exact absurd hd1 (by simp)
          exact ⟨d1, t1, by rw [lookup_insert_ne _ _ _ _ hne]; exact hd1⟩
        · intro id' st hst
          by_cases he : id' = id
          · rw [he]; exact hn _ _ hst0
          · rw [lookup_insert_ne _ _ _ _ he] at hst
            exact hn _ _ hst
      · rw [if_neg hrm]
        exact ⟨hq, hr, hn⟩

/-- Every reachable manager state satisfies the invariant. -/
theorem MInv_reachable (s : ManagerState) (h : Reachable s) : MInv s := by
  induction h with
  | init =>
    exact ⟨fun t ht => absurd ht (List.not_mem_nil t),
           fun id hid => absurd hid (List.not_mem_nil id),
           fun id st hst => by simp [ManagerState.init, lookupStatus] at hst⟩
  | step s e _ ih => exact MInv_step s e ih

/-- In an invariant state, an id that is not running, not queued, and (when
statuses mention it at all) allocated, keeps its status across any event. -/
theorem step_preserves_status (s : ManagerState) (id : Nat) (st : DownloadStatus)
    (hst : lookupStatus s.statuses id = some st)
    (hI : MInv s)
    (hnr : id ∉ s.running) (hnq : ∀ t ∈ s.queue, t.id ≠ id) (e : MEvent) :
    lookupStatus (s.step e).statuses id = some st := by
  obtain ⟨hq, hr, hn⟩ := hI
  cases e with
  | enqueue url dest p =>
    show lookupStatus (insertStatus s.statuses s.nextId .queued) id = some st
    have := hn _ _ hst
    rw [lookup_insert_ne _ _ _ _ (by omega)]
    exact hst
  | dispatch =>
    show lookupStatus (match heapMax s.queue with
      | none => s
      | some t => { s with
          queue := removeFromQueue s.queue t.id
          statuses := insertStatus s.statuses t.id (.downloading 0 0)
          running := t.id :: s.running }).statuses id = some st
    cases hpop : heapMax s.queue with
    | none => exact hst
    | some t =>
      have hne : id ≠ t.id := fun he => (hnq t (heapMax_mem _ _ hpop)) (he ▸ rfl)
      show lookupStatus (insertStatus s.statuses t.id (.downloading 0 0)) id = some st
      exact (lookup_insert_ne s.statuses t.id id _ hne).trans hst
  | tick j d tot =>
    show lookupStatus (if j ∈ s.running then
        { s with statuses := insertStatus s.statuses j (.downloading d tot) } else s).statuses
        id = some st
    by_cases hj : j ∈ s.running
    · have hne : id ≠ j := fun he => hnr (he ▸ hj)
      rw [if_pos hj]
      exact (lookup_insert_ne s.statuses j id _ hne).trans hst
    · rw [if_neg hj]; exact hst
  | complete j =>
    show lookupStatus (if j ∈ s.running then
        { s with statuses := insertStatus s.statuses j .completed
                 running := s.running.filter (fun i => i ≠ j) } else s).statuses id = some st
    by_cases hj : j ∈ s.running
    · have hne : id ≠ j := fun he => hnr (he ▸ hj)
      rw [if_pos hj]
      exact (lookup_insert_ne s.statuses j id _ hne).trans hst
    · rw [if_neg hj]; exact hst
  | fail j reason =>
    show lookupStatus (if j ∈ s.running then
        { s with statuses := insertStatus s.statuses j (.failed reason)
                 running := s.running.filter (fun i => i ≠ j) } else s).statuses id = some st
    by_cases hj : j ∈ s.running
    · have hne : id ≠ j := fun he => hnr (he ▸ hj)
      rw [if_pos hj]
      exact (lookup_insert_ne s.statuses j id _ hne).trans hst
    · rw [if_neg hj]; exact hst
  | cancel j =>
    show lookupStatus ((s.cancel j).2).statuses id = some st
    unfold ManagerState.cancel
    by_cases hj : j ∈ s.running
    · have hne : id ≠ j := fun he => hnr (he ▸ hj)
      rw [if_pos hj]
      exact (lookup_insert_ne s.statuses j id _ hne).trans hst
    · rw [if_neg hj]
      by_cases hrm : (removeFromQueue s.queue j).length < s.queue.length
      · obtain ⟨t0, ht0q, ht0id⟩ := filter_shrank hrm
        simp only [decide_eq_false_iff_not, not_not] at ht0id
        have hne : id ≠ j := fun he => (hnq t0 ht0q) (by rw [ht0id, he])
        rw [if_pos hrm]
        exact (lookup_insert_ne s.statuses j id _ hne).trans hst
      · rw [if_neg hrm]
        exact hst

/-- In an invariant state, `cancel` on an id that is neither running nor
queued returns `false` and leaves the whole state unchanged. -/
theorem cancel_miss (s : ManagerState) (id : Nat)
    (hnr : id ∉ s.running) (hnq : ∀ t ∈ s.queue, t.id ≠ id) :
    s.cancel id = (false, s) := by
  unfold ManagerState.cancel
  rw [if_neg hnr]
  have hfq : removeFromQueue s.queue id = s.queue :=
    List.filter_eq_self.mpr fun t ht => by simp [hnq t ht]
  rw [hfq, if_neg (lt_irrefl s.queue.length)]

/-- C1 (code_bug): with concurrency cap 1, after enqueueing A (Low, id 0) —
then dispatched — then B (Critical, id 1) and C (Normal, id 2), the next
`BinaryHeap::pop` of the consumer loop returns C (Normal, newer), not B
(Critical): the source's `Ord for DownloadTask` compares
`(other.priority as i32).cmp(&(self.priority as i32))`, which makes a
HIGHER priority compare LESS, so the max-heap yields the LOWEST priority
first; on equal priorities `self.id.cmp(&other.id)` makes the heap yield
the LARGEST id (newest) first.  This contradicts the spec and the code's
own comments ("higher priority = more prioritary", "smaller ID = older =
more prioritary"). -/
theorem c1_priority_order_inverted :
    heapMax (applyTrace ManagerState.init
        [.enqueue "https://a" "a.bin" (some .low), .dispatch,
         .enqueue "https://b" "b.bin" (some .critical),
         .enqueue "https://c" "c.bin" (some .normal)]).queue
      = some ⟨"https://c", "c.bin", .normal, 2⟩ ∧
    DownloadTask.cmp ⟨"https://b", "b.bin", .critical, 1⟩
        ⟨"https://c", "c.bin", .normal, 2⟩ = Ordering.lt ∧
    heapMax [⟨"https://b", "b.bin", .normal, 1⟩, ⟨"https://c", "c.bin", .normal, 2⟩]
      = some ⟨"https://c", "c.bin", .normal, 2⟩ := by
  decide

/-- C2 counterexample: a second `enqueue`, issued right after a first one
(whose consumer loop was just spawned), hands a second consumer loop to
`tokio::spawn` — `consumerSpawns` reaches 2, refuting "an enqueue issued
while a consumer loop is already active does not start a second competing
consumer". -/
theorem c2_counterexample_second_consumer :
    (applyTrace ManagerState.init
        [.enqueue "https://a" "a.bin" none]).consumerSpawns = 1 ∧
    (applyTrace ManagerState.init
        [.enqueue "https://a" "a.bin" none,
         .enqueue "https://b" "b.bin" none]).consumerSpawns = 2 := by
  decide

/-- C2 (amended): `enqueue` installs no singleton guard at all — every
enqueue call unconditionally spawns one fresh consumer loop
(`process_queue` begins with an unguarded `tokio::spawn`), so after any
event trace the number of consumer loops spawned equals the number of
enqueue calls in the trace. -/
theorem c2_amended_spawn_per_enqueue (s : ManagerState) (es : List MEvent) :
    (applyTrace s es).consumerSpawns = s.consumerSpawns + countEnqueues es := by
  induction es generalizing s with
  | nil => simp [applyTrace, countEnqueues]
  | cons e rest ih =>
    have hstep : (s.step e).consumerSpawns
        = s.consumerSpawns + (match e with | .enqueue _ _ _ => 1 | _ => 0) := by
      cases e with
      | enqueue url dest p => rfl
      | dispatch =>
        show (match heapMax s.queue with
          | none => s
          | some t => { s with
              queue := removeFromQueue s.queue t.id
              statuses := insertStatus s.statuses t.id (.downloading 0 0)
              running := t.id :: s.running }).consumerSpawns = s.consumerSpawns + 0
        cases heapMax s.queue <;> rfl
      | tick id d tot =>
        show (if id ∈ s.running then
            { s with statuses := insertStatus s.statuses id (.downloading d tot) }
          else s).consumerSpawns = s.consumerSpawns + 0
        split <;> rfl
      | complete id =>
        show (if id ∈ s.running then
            { s with statuses := insertStatus s.statuses id .completed
                     running := s.running.filter (fun j => j ≠ id) }
          else s).consumerSpawns = s.consumerSpawns + 0
        split <;> rfl
      | fail id reason =>
        show (if id ∈ s.running then
            { s with statuses := insertStatus s.statuses id (.failed reason)
                     running := s.running.filter (fun j => j ≠ id) }
          else s).consumerSpawns = s.consumerSpawns + 0
        split <;> rfl
      | cancel id =>
        show ((s.cancel id).2).consumerSpawns = s.consumerSpawns + 0
        unfold ManagerState.cancel
        split
        · rfl
        · dsimp only
          split <;> rfl
    show (applyTrace (s.step e) rest).consumerSpawns = _
    rw [ih (s.step e), hstep]
    cases e <;> simp [countEnqueues, List.filter]
    all_goals omega

/-- Boundary result: IF each manager method ran atomically (the
method-granular `ManagerState.step`), a terminal status would be stable
under every further event and `cancel` on a terminal or unknown id would
return `false` unchanged.  The program does NOT provide this atomicity —
the completion path takes its two locks separately — and the claim fails
there; see `c6_stale_handle_cancel_overwrites_terminal` on the lock-scope
model. -/
theorem methodAtomic_terminal_status_stable (s : ManagerState) (hreach : Reachable s) (id : Nat) :
    (∀ st, lookupStatus s.statuses id = some st → st.isTerminal = true →
      (∀ e : MEvent, lookupStatus (s.step e).statuses id = some st) ∧
      s.cancel id = (false, s)) ∧
    (lookupStatus s.statuses id = none → s.cancel id = (false, s)) := by
  have hI := MInv_reachable s hreach
  obtain ⟨hq, hr, hn⟩ := hI
  constructor
  · intro st hst hterm
    have hnr : id ∉ s.running := by
      intro hid
      obtain ⟨d, tot, hd⟩ := hr id hid
      rw [hst] at hd
      obtain rfl : st = .downloading d tot := by injection hd
      simp [DownloadStatus.isTerminal] at hterm
    have hnq : ∀ t ∈ s.queue, t.id ≠ id := by
      intro t ht he
      have := hq t ht
      rw [he, hst] at this
      obtain rfl : st = .queued := by injection this
      simp [DownloadStatus.isTerminal] at hterm
    exact ⟨fun e => step_preserves_status s id st hst ⟨hq, hr, hn⟩ hnr hnq e,
           cancel_miss s id hnr hnq⟩
  · intro hnone
    have hnr : id ∉ s.running := by
      intro hid
      obtain ⟨d, tot, hd⟩ := hr id hid
      rw [hnone] at hd
      exact absurd hd (by simp)
    have hnq : ∀ t ∈ s.queue, t.id ≠ id := by
      intro t ht he
      have := hq t ht
      rw [he, hnone] at this
      exact absurd this (by simp)
    exact cancel_miss s id hnr hnq

/-- Instance of the boundary result at a concrete reachable state:
enqueue id 0, dispatch it, complete it — under method-atomic steps the
`Completed` status persists and `cancel 0` returns `false`. -/
theorem methodAtomic_terminal_status_stable_instance :
    (∀ e : MEvent,
      lookupStatus
        ((((ManagerState.init.step (.enqueue "https://a" "a.bin" none)).step
            .dispatch).step (.complete 0)).step e).statuses 0
        = some .completed) ∧
    (((ManagerState.init.step (.enqueue "https://a" "a.bin" none)).step
        .dispatch).step (.complete 0)).cancel 0
      = (false,
         ((ManagerState.init.step (.enqueue "https://a" "a.bin" none)).step
            .dispatch).step (.complete 0)) := by
  have hreach :
      Reachable
        ((((ManagerState.init.step (.enqueue "https://a" "a.bin" none)).step
            .dispatch).step (.complete 0))) :=
    Reachable.step _ _ (Reachable.step _ _ (Reachable.step _ _ Reachable.init))
  exact (methodAtomic_terminal_status_stable _ hreach 0).1 .completed (by decide) (by decide)

/-- C6 (code_bug): two realizable schedules of the source's critical
sections make `cancel` overwrite a terminal status and return `true`.
Schedule A: the download task writes `Completed` (lines 504-517) and, in
the window before its own `tasks.remove` (lines 519-521) — the two lock
scopes are separated by await points — `cancel` finds the stale handle,
returns `true`, and replaces `Completed` with `Canceled` (lines 342-349).
Schedule B: a fast download finishes before the consumer's `tasks.insert`
(lines 527-530), which then stores a handle for an already-terminal task;
any later `cancel` finds it, returns `true`, and overwrites the terminal
status.  Both contradict the claim (and `cancel`'s own doc comment:
"false if it doesn't exist or is already completed"). -/
theorem c6_stale_handle_cancel_overwrites_terminal :
    (lookupStatus (applyFineTrace FineState.init
        [.enqueue "https://a" "a.bin" none, .dispatch, .storeHandle 0,
         .finishOk 0]).statuses 0 = some .completed ∧
     ((applyFineTrace FineState.init
        [.enqueue "https://a" "a.bin" none, .dispatch, .storeHandle 0,
         .finishOk 0]).cancelF 0).1 = true ∧
     lookupStatus ((applyFineTrace FineState.init
        [.enqueue "https://a" "a.bin" none, .dispatch, .storeHandle 0,
         .finishOk 0]).cancelF 0).2.statuses 0 = some .canceled) ∧
    (lookupStatus (applyFineTrace FineState.init
        [.enqueue "https://a" "a.bin" none, .dispatch, .finishOk 0,
         .finishRemove 0, .storeHandle 0]).statuses 0 = some .completed ∧
     ((applyFineTrace FineState.init
        [.enqueue "https://a" "a.bin" none, .dispatch, .finishOk 0,
         .finishRemove 0, .storeHandle 0]).cancelF 0).1 = true ∧
     lookupStatus ((applyFineTrace FineState.init
        [.enqueue "https://a" "a.bin" none, .dispatch, .finishOk 0,
         .finishRemove 0, .storeHandle 0]).cancelF 0).2.statuses 0
       = some .canceled) := by
  decide

theorem U64_eq : U64 = 18446744073709551616 := by norm_num [U64]

/-- Without wrap-around the u64 subtraction is the plain difference. -/
theorem u64Sub_of_le (a b : Nat) (hb : b ≤ a) (ha : a < U64) : u64Sub a b = a - b := by
  have hb' : b < U64 := lt_of_le_of_lt hb ha
  unfold u64Sub
  rw [Nat.mod_eq_of_lt ha, Nat.mod_eq_of_lt hb']
  rw [U64_eq] at ha hb' ⊢
  omega

/-- On a future-stamped entry the u64 subtraction wraps. -/
theorem u64Sub_of_gt (a b : Nat) (hb : a < b) (hbU : b < U64) :
    u64Sub a b = U64 - (b - a) := by
  have ha : a < U64 := lt_trans hb hbU
  unfold u64Sub
  rw [Nat.mod_eq_of_lt ha, Nat.mod_eq_of_lt hbU]
  rw [U64_eq] at ha hbU ⊢
  omega

/-- C8: an entry cached at `t0` under ttl `T` is returned by
`VideoCache::get` when read at `t0 + T - 1` and missed at `t0 + T + 1`;
in general (for clocks at or after the stamp) `get` misses exactly when
the URL has no row or `now - cached_at > ttl`, and an absent URL is always
a miss. -/
theorem c8_ttl_expiry (c : VideoCache) (url : String) (row : VideoRow)
    (hfind : findByUrl c.rows url = some row)
    (hbound : row.cached_at + c.ttl + 1 < U64) (hT : 1 ≤ c.ttl) :
    c.get url (row.cached_at + c.ttl - 1) = some row.video_json ∧
    c.get url (row.cached_at + c.ttl + 1) = none ∧
    (∀ now, row.cached_at ≤ now → now < U64 →
      (c.get url now = none ↔ c.ttl < now - row.cached_at)) ∧
    (∀ u now, findByUrl c.rows u = none → c.get u now = none) := by
  refine ⟨?_, ?_, ?_, ?_⟩
  · unfold VideoCache.get
    rw [hfind]
    show (if u64Sub (row.cached_at + c.ttl - 1) row.cached_at ≤ c.ttl
        then some row.video_json else none) = some row.video_json
    rw [u64Sub_of_le _ _ (by omega) (by omega)]
    rw [if_pos (by omega)]
  · unfold VideoCache.get
    rw [hfind]
    show (if u64Sub (row.cached_at + c.ttl + 1) row.cached_at ≤ c.ttl
        then some row.video_json else none) = none
    rw [u64Sub_of_le _ _ (by omega) (by omega)]
    rw [if_neg (by omega)]
  · intro now hge hlt
    unfold VideoCache.get
    rw [hfind]
    show (if u64Sub now row.cached_at ≤ c.ttl
        then some row.video_json else none) = none ↔ c.ttl < now - row.cached_at
    rw [u64Sub_of_le _ _ hge hlt]
    constructor
    · intro hnone
      by_contra hc
      rw [if_pos (by omega)] at hnone
      exact Option.some_ne_none _ hnone
    · intro hgt
      rw [if_neg (by omega)]
  · intro u now hmiss
    unfold VideoCache.get
    rw [hmiss]

/-- Witness for C8 at a concrete cache: one row stamped at 1000 with ttl
500 is a hit at 1499 and a miss at 1501. -/
theorem c8_ttl_expiry_witness :
    (VideoCache.mk [⟨"id1", "t", "https://v", "{}", 1000⟩] 500).get "https://v" 1499
      = some "{}" ∧
    (VideoCache.mk [⟨"id1", "t", "https://v", "{}", 1000⟩] 500).get "https://v" 1501
      = none := by
  have h := c8_ttl_expiry (VideoCache.mk [⟨"id1", "t", "https://v", "{}", 1000⟩] 500)
    "https://v" ⟨"id1", "t", "https://v", "{}", 1000⟩ (by decide)
    (by rw [U64_eq]; norm_num) (by norm_num)
  exact ⟨h.1, h.2.1⟩

/-- C9: `get_by_id` returns the row when present and fresh; when the row
is absent it returns the "not found in cache" `FormatNotFound` error, when
present but stale the "has expired in cache" one — and those two error
values are distinct, so the error discriminates the two cases. -/
theorem c9_get_by_id_errors (c : VideoCache) (id : String) (now : Nat) :
    (∀ row, c.rows.find? (fun r => r.id == id) = some row →
        row.cached_at ≤ now → now < U64 →
      (now - row.cached_at ≤ c.ttl → c.get_by_id id now = Except.ok row) ∧
      (c.ttl < now - row.cached_at →
        c.get_by_id id now =
          Except.error (.formatNotFound ("Video with ID " ++ id ++ " has expired in cache")))) ∧
    (c.rows.find? (fun r => r.id == id) = none →
      c.get_by_id id now =
        Except.error (.formatNotFound ("Video with ID " ++ id ++ " not found in cache"))) ∧
    CacheError.formatNotFound ("Video with ID " ++ id ++ " has expired in cache") ≠
      CacheError.formatNotFound ("Video with ID " ++ id ++ " not found in cache") := by
  refine ⟨?_, ?_, ?_⟩
  · intro row hfind hge hlt
    constructor
    · intro hfresh
      unfold VideoCache.get_by_id
      rw [hfind]
      show (if u64Sub now row.cached_at ≤ c.ttl then Except.ok row
          else Except.error
            (CacheError.formatNotFound ("Video with ID " ++ id ++ " has expired in cache")))
        = Except.ok row
      rw [u64Sub_of_le _ _ hge hlt, if_pos hfresh]
    · intro hstale
      unfold VideoCache.get_by_id
      rw [hfind]
      show (if u64Sub now row.cached_at ≤ c.ttl then Except.ok row
          else Except.error
            (CacheError.formatNotFound ("Video with ID " ++ id ++ " has expired in cache")))
        = Except.error
            (CacheError.formatNotFound ("Video with ID " ++ id ++ " has expired in cache"))
      rw [u64Sub_of_le _ _ hge hlt, if_neg (by omega)]
  · intro hmiss
    unfold VideoCache.get_by_id
    rw [hmiss]
  · intro h
    injection h with h2
    have h3 := congrArg String.length h2
    simp only [String.length_append] at h3
    have e1 : (" has expired in cache").length = 21 := rfl
    have e2 : (" not found in cache").length = 19 := rfl
    rw [e1, e2] at h3
    omega

/-- Witness for C9 at a concrete cache: present-and-fresh yields the row,
present-and-stale yields the expired error, absent yields the not-found
error. -/
theorem c9_get_by_id_errors_witness :
    (VideoCache.mk [⟨"id1", "t", "https://v", "{}", 1000⟩] 500).get_by_id "id1" 1200
      = Except.ok ⟨"id1", "t", "https://v", "{}", 1000⟩ ∧
    (VideoCache.mk [⟨"id1", "t", "https://v", "{}", 1000⟩] 500).get_by_id "id1" 1501
      = Except.error (.formatNotFound "Video with ID id1 has expired in cache") ∧
    (VideoCache.mk [⟨"id1", "t", "https://v", "{}", 1000⟩] 500).get_by_id "idX" 1200
      = Except.error (.formatNotFound "Video with ID idX not found in cache") := by
  have h1 := c9_get_by_id_errors (VideoCache.mk [⟨"id1", "t", "https://v", "{}", 1000⟩] 500)
    "id1" 1200
  have h2 := c9_get_by_id_errors (VideoCache.mk [⟨"id1", "t", "https://v", "{}", 1000⟩] 500)
    "id1" 1501
  have h3 := c9_get_by_id_errors (VideoCache.mk [⟨"id1", "t", "https://v", "{}", 1000⟩] 500)
    "idX" 1200
  refine ⟨?_, ?_, ?_⟩
  · exact (h1.1 ⟨"id1", "t", "https://v", "{}", 1000⟩ (by decide) (by norm_num)
      (by rw [U64_eq]; norm_num)).1 (by norm_num)
  · exact (h2.1 ⟨"id1", "t", "https://v", "{}", 1000⟩ (by decide) (by norm_num)
      (by rw [U64_eq]; norm_num)).2 (by norm_num)
  · exact h3.2.1 (by decide)

/-- C10: the TTL checks' `now - cached_at` is the wrapping u64 difference;
under the precondition `cached_at <= now` it cannot underflow and the entry
is fresh exactly when the true difference is at most the ttl, while an entry
stamped in the reading clock's future makes the subtraction wrap to
`2^64 - (cached_at - now)`, so (whenever that huge value exceeds the ttl)
the getters treat the entry as expired instead of fresh — both for
`VideoCache::get` and for `DownloadCache::get_by_hash`. -/
theorem c10_ttl_subtraction_guard (now cachedAt ttl : Nat)
    (hnow : now < U64) (hca : cachedAt < U64) :
    (cachedAt ≤ now →
      u64Sub now cachedAt = now - cachedAt ∧
      (u64Sub now cachedAt ≤ ttl ↔ now - cachedAt ≤ ttl)) ∧
    (now < cachedAt →
      u64Sub now cachedAt = U64 - (cachedAt - now) ∧
      (ttl + (cachedAt - now) < U64 → ¬ u64Sub now cachedAt ≤ ttl)) ∧
    (∀ (c : VideoCache) (url : String) (row : VideoRow),
      findByUrl c.rows url = some row → row.cached_at = cachedAt → c.ttl = ttl →
      now < cachedAt → ttl + (cachedAt - now) < U64 →
      c.get url now = none) ∧
    (∀ (dc : DownloadCache) (hsh : String) (row : FileRow),
      dc.files.find? (fun r => r.id == hsh) = some row → row.cached_at = cachedAt →
      dc.ttl = ttl → now < cachedAt → ttl + (cachedAt - now) < U64 →
      dc.get_by_hash hsh now = none) := by
  refine ⟨?_, ?_, ?_, ?_⟩
  · intro hle
    exact ⟨u64Sub_of_le now cachedAt hle hnow, by rw [u64Sub_of_le now cachedAt hle hnow]⟩
  · intro hgt
    have hw := u64Sub_of_gt now cachedAt hgt hca
    exact ⟨hw, fun hbig => by rw [hw]; omega⟩
  · intro c url row hfind hrow httl hgt hbig
    unfold VideoCache.get
    rw [hfind]
    show (if u64Sub now row.cached_at ≤ c.ttl then some row.video_json else none) = none
    have hw := u64Sub_of_gt now cachedAt hgt hca
    rw [hrow, hw, if_neg (by omega)]
  · intro dc hsh row hfind hrow httl hgt hbig
    unfold DownloadCache.get_by_hash
    rw [hfind]
    show (if u64Sub now row.cached_at ≤ dc.ttl then
        (if row.relative_path ∈ dc.blobs then some (row, row.relative_path) else none)
      else none) = none
    have hw := u64Sub_of_gt now cachedAt hgt hca
    rw [hrow, hw, if_neg (by omega)]

theorem hashPath_inj (pre h1 h2 dot e : String) (hne : h1 ≠ h2) :
    pre ++ h1 ++ dot ++ e ≠ pre ++ h2 ++ dot ++ e := by
  intro h
  apply hne
  have hd := congrArg String.data h
  simp only [String.data_append] at hd
  exact String.ext
    (List.append_cancel_left (List.append_cancel_right (List.append_cancel_right hd)))

theorem put_file_id (c : DownloadCache) (p : String) (content : List Nat) (f : String)
    (v : Option String) (fm : Option FormatArg) (q1 q2 q3 q4 : Option String) (t : Nat) :
    (c.put_file_with_preferences p content f v fm q1 q2 q3 q4 t).1.id
      = sha256Hex content := rfl

theorem put_file_relative_path (c : DownloadCache) (p : String) (content : List Nat)
    (f : String) (v : Option String) (fm : Option FormatArg)
    (q1 q2 q3 q4 : Option String) (t : Nat) :
    (c.put_file_with_preferences p content f v fm q1 q2 q3 q4 t).1.relative_path
      = "files/" ++ sha256Hex content ++ "." ++ (pathExtension f).getD "" := rfl

theorem put_file_blob_mem (c : DownloadCache) (p : String) (content : List Nat)
    (f : String) (v : Option String) (fm : Option FormatArg)
    (q1 q2 q3 q4 : Option String) (t : Nat) :
    ("files/" ++ sha256Hex content ++ "." ++ (pathExtension f).getD "")
      ∈ (c.put_file_with_preferences p content f v fm q1 q2 q3 q4 t).2.blobs := by
  unfold DownloadCache.put_file_with_preferences
  dsimp only
  by_cases hm :
      ("files/" ++ sha256Hex content ++ "." ++ (pathExtension f).getD "") ∈ c.blobs
  · rw [if_pos hm]
    exact hm
  · rw [if_neg hm]
    exact List.mem_cons_self _ _

theorem put_file_blobs_mono (c : DownloadCache) (p : String) (content : List Nat)
    (f : String) (v : Option String) (fm : Option FormatArg)
    (q1 q2 q3 q4 : Option String) (t : Nat) (x : String) (hx : x ∈ c.blobs) :
    x ∈ (c.put_file_with_preferences p content f v fm q1 q2 q3 q4 t).2.blobs := by
  unfold DownloadCache.put_file_with_preferences
  dsimp only
  by_cases hm :
      ("files/" ++ sha256Hex content ++ "." ++ (pathExtension f).getD "") ∈ c.blobs
  · rw [if_pos hm]
    exact hx
  · rw [if_neg hm]
    exact List.mem_cons_of_mem _ hx

theorem put_file_skip_when_present (c : DownloadCache) (p : String) (content : List Nat)
    (f : String) (v : Option String) (fm : Option FormatArg)
    (q1 q2 q3 q4 : Option String) (t : Nat)
    (hm : ("files/" ++ sha256Hex content ++ "." ++ (pathExtension f).getD "") ∈ c.blobs) :
    (c.put_file_with_preferences p content f v fm q1 q2 q3 q4 t).2.blobs = c.blobs ∧
    (c.put_file_with_preferences p content f v fm q1 q2 q3 q4 t).2.writeLog = c.writeLog := by
  unfold DownloadCache.put_file_with_preferences
  dsimp only
  rw [if_pos hm]
  exact ⟨rfl, rfl⟩

/-- C3 (amended): byte-identical content always hashes to the same
`content_hash` (the hex SHA-256 of the bytes), and for `put_file` /
`put_file_with_preferences` the on-disk object at `<hash>.<ext>` is written
at most once across two puts — the second copy is skipped because the
destination path already exists; a put of content with a different hash
(`put_thumbnail`, by contrast, recopies its blob unconditionally — see the
counterexample) yields a different id and a separate stored blob alongside
the first. -/
theorem c3_amended_content_addressing (c : DownloadCache)
    (p1 p2 f1 f2 : String) (content other : List Nat)
    (v1 v2 : Option String) (fm1 fm2 : Option FormatArg)
    (vq1 aq1 vc1 ac1 vq2 aq2 vc2 ac2 : Option String) (t1 t2 : Nat)
    (hext : (pathExtension f2).getD "" = (pathExtension f1).getD "")
    (hdiff : sha256Hex other ≠ sha256Hex content) :
    let put1 := c.put_file_with_preferences p1 content f1 v1 fm1 vq1 aq1 vc1 ac1 t1
    let put2 := put1.2.put_file_with_preferences p2 content f2 v2 fm2 vq2 aq2 vc2 ac2 t2
    let put3 := put1.2.put_file_with_preferences p2 other f2 v2 fm2 vq2 aq2 vc2 ac2 t2
    put1.1.id = sha256Hex content ∧
    put2.1.id = put1.1.id ∧
    put2.2.writeLog = put1.2.writeLog ∧
    put2.2.blobs = put1.2.blobs ∧
    put3.1.id ≠ put1.1.id ∧
    put1.1.relative_path ∈ put3.2.blobs ∧
    put3.1.relative_path ∈ put3.2.blobs ∧
    put3.1.relative_path ≠ put1.1.relative_path := by
  intro put1 put2 put3
  have hmem := put_file_blob_mem c p1 content f1 v1 fm1 vq1 aq1 vc1 ac1 t1
  have hmem2 : ("files/" ++ sha256Hex content ++ "." ++ (pathExtension f2).getD "")
      ∈ put1.2.blobs := by rw [hext]; exact hmem
  have hskip := put_file_skip_when_present put1.2 p2 content f2 v2 fm2 vq2 aq2 vc2 ac2 t2 hmem2
  refine ⟨rfl, rfl, hskip.2, hskip.1, hdiff, ?_, ?_, ?_⟩
  · rw [put_file_relative_path]
    apply put_file_blobs_mono
    exact hmem
  · rw [put_file_relative_path]
    exact put_file_blob_mem put1.2 p2 other f2 v2 fm2 vq2 aq2 vc2 ac2 t2
  · rw [put_file_relative_path, put_file_relative_path, hext]
    exact hashPath_inj _ _ _ _ _ hdiff

/-- Witness for C3 (amended) at a concrete cache: contents `[1]` twice and
`[2]` once, under filenames with the same extension. -/
theorem c3_amended_content_addressing_witness :
    (pathExtension "b.mp4").getD "" = (pathExtension "a.mp4").getD "" ∧
    sha256Hex [2] ≠ sha256Hex [1] ∧
    ((DownloadCache.new 604800).put_file_with_preferences "/tmp/a.mp4" [1] "a.mp4"
        none none none none none none 10).1.id = sha256Hex [1] ∧
    ((((DownloadCache.new 604800).put_file_with_preferences "/tmp/a.mp4" [1] "a.mp4"
        none none none none none none 10).2).put_file_with_preferences "/tmp/b.mp4" [1]
        "b.mp4" none none none none none none 20).2.writeLog
      = (((DownloadCache.new 604800).put_file_with_preferences "/tmp/a.mp4" [1] "a.mp4"
        none none none none none none 10).2).writeLog ∧
    ((((DownloadCache.new 604800).put_file_with_preferences "/tmp/a.mp4" [1] "a.mp4"
        none none none none none none 10).2).put_file_with_preferences "/tmp/b.mp4" [2]
        "b.mp4" none none none none none none 20).1.id
      ≠ ((DownloadCache.new 604800).put_file_with_preferences "/tmp/a.mp4" [1] "a.mp4"
        none none none none none none 10).1.id := by
  have h := c3_amended_content_addressing (DownloadCache.new 604800) "/tmp/a.mp4"
    "/tmp/b.mp4" "a.mp4" "b.mp4" [1] [2] none none none none
    none none none none none none none none 10 20 rfl (by decide)
  exact ⟨rfl, by decide, h.1, h.2.2.1, h.2.2.2.2.1⟩

/-- C3 counterexample: two `put_thumbnail` calls with byte-identical
content copy the SAME destination blob twice — `tokio::fs::copy` runs with
no existence guard, so the write log records the one path two times — and
the second call then fails on the duplicate-key plain `INSERT`; this
refutes "the on-disk cached object at `<hash>.<ext>` is written at most
once across the two puts (copy only if the destination path does not
already exist)" as stated for `put_thumbnail`. -/
theorem c3_counterexample_thumbnail_recopied :
    (((DownloadCache.new 604800).put_thumbnail "/tmp/a.jpg" [7, 7, 7] "a.jpg" "v1"
        ⟨none, none⟩ 100).2.put_thumbnail "/tmp/b.jpg" [7, 7, 7] "b.jpg" "v1"
        ⟨none, none⟩ 101).2.writeLog
      = ["thumbnails/" ++ sha256Hex [7, 7, 7] ++ ".jpg",
         "thumbnails/" ++ sha256Hex [7, 7, 7] ++ ".jpg"] ∧
    (((DownloadCache.new 604800).put_thumbnail "/tmp/a.jpg" [7, 7, 7] "a.jpg" "v1"
        ⟨none, none⟩ 100).2.put_thumbnail "/tmp/b.jpg" [7, 7, 7] "b.jpg" "v1"
        ⟨none, none⟩ 101).1
      = Except.error "UNIQUE constraint failed: thumbnails.id" := by
  constructor
  · rfl
  · rfl

/-- C4 (code_bug): the thumbnail round-trip cannot hit.  `put_thumbnail`
stores its row in the `thumbnails` table and succeeds — the returned entry
carries the content hash as id, the blob is on disk, and the read below
happens within TTL — yet `get_thumbnail_by_video_id` immediately returns
`None`, because it queries the `files` table, which `put_thumbnail` never
writes. -/
theorem c4_thumbnail_roundtrip_broken :
    ((((DownloadCache.new 604800).put_thumbnail "/tmp/t.jpg" [1, 2, 3] "t.jpg" "vid1"
        ⟨some 120, some 90⟩ 1000).2).get_thumbnail_by_video_id "vid1" 1000) = none ∧
    (((DownloadCache.new 604800).put_thumbnail "/tmp/t.jpg" [1, 2, 3] "t.jpg" "vid1"
        ⟨some 120, some 90⟩ 1000).1)
      = Except.ok ⟨sha256Hex [1, 2, 3], "t.jpg",
          "thumbnails/" ++ sha256Hex [1, 2, 3] ++ ".jpg", "vid1", 3, "image/jpeg",
          some 120, some 90, 1000⟩ ∧
    (((DownloadCache.new 604800).put_thumbnail "/tmp/t.jpg" [1, 2, 3] "t.jpg" "vid1"
        ⟨some 120, some 90⟩ 1000).2).thumbnails.length = 1 ∧
    ("thumbnails/" ++ sha256Hex [1, 2, 3] ++ ".jpg")
      ∈ (((DownloadCache.new 604800).put_thumbnail "/tmp/t.jpg" [1, 2, 3] "t.jpg" "vid1"
          ⟨some 120, some 90⟩ 1000).2).blobs ∧
    u64Sub 1000 1000 ≤ 604800 := by
  refine ⟨rfl, rfl, rfl, List.mem_cons_self _ _, by decide⟩

theorem lt_divCeil_iff (S Z i : Nat) (hZ : 0 < Z) : i < divCeil S Z ↔ i * Z < S := by
  unfold divCeil
  by_cases h : S % Z = 0
  · rw [if_pos h, Nat.add_zero]
    have hSZ : S / Z * Z = S := Nat.div_mul_cancel (Nat.dvd_of_mod_eq_zero h)
    constructor
    · intro hi
      rw [← hSZ]
      exact (Nat.mul_lt_mul_right hZ).mpr hi
    · intro hi
      rw [← hSZ] at hi
      exact (Nat.mul_lt_mul_right hZ).mp hi
  · rw [if_neg h]
    constructor
    · intro hi
      have hle : i ≤ S / Z := by omega
      have h2 : i * Z ≤ S := (Nat.le_div_iff_mul_le hZ).mp hle
      have h3 : i * Z ≠ S := fun he => h (by rw [← he, Nat.mul_mod_left])
      omega
    · intro hi
      have hle : i ≤ S / Z := (Nat.le_div_iff_mul_le hZ).mpr (le_of_lt hi)
      omega

theorem le_divCeil_mul (S Z : Nat) (hZ : 0 < Z) : S ≤ divCeil S Z * Z := by
  by_contra hc
  push_neg at hc
  have := (lt_divCeil_iff S Z (divCeil S Z) hZ).mpr hc
  omega

theorem segmentSum_aux (S Z : Nat) (n : Nat) :
    ((List.range n).map fun i => min (i * Z + Z) S - i * Z).sum = min (n * Z) S := by
  induction n with
  | zero => simp
  | succ n ih =>
    rw [List.range_succ, List.map_append, List.sum_append]
    simp only [List.map_cons, List.map_nil, List.sum_cons, List.sum_nil]
    rw [ih, Nat.succ_mul]
    omega

/-- The value of the `i`-th segment range when none of the u64 operations
wraps badly: under `ceil(S/Z) * Z ≤ 2^64` (tight — equality still works
out, because the wrapped `start + Z - 1` lands on `2^64 - 1` and the `min`
with `S - 1` absorbs it). -/
theorem segmentRanges_elem (S Z i : Nat) (hZ : 0 < Z) (hS : S < U64)
    (hov : divCeil S Z * Z ≤ U64) (hi : i < divCeil S Z) :
    (segmentRanges S Z)[i]? = some (i * Z, min ((i + 1) * Z) S - 1) := by
  have hiS : i * Z < S := (lt_divCeil_iff S Z i hZ).mp hi
  have hS1 : 1 ≤ S := by omega
  have hsucc : (i + 1) * Z ≤ U64 :=
    le_trans (Nat.mul_le_mul_right Z hi) hov
  have hstart : u64Mul i Z = i * Z := by
    unfold u64Mul
    exact Nat.mod_eq_of_lt (lt_trans hiS hS)
  have hSsub : u64Sub S 1 = S - 1 := u64Sub_of_le S 1 hS1 hS
  unfold segmentRanges
  rw [List.getElem?_map, List.getElem?_range hi, Option.map_some']
  show some (u64Mul i Z,
      min (u64Sub (u64Add (u64Mul i Z) Z) 1) (u64Sub S 1))
    = some (i * Z, min ((i + 1) * Z) S - 1)
  rw [hstart, hSsub]
  by_cases hcase : (i + 1) * Z = U64
  · have hadd : u64Add (i * Z) Z = 0 := by
      unfold u64Add
      rw [show i * Z + Z = U64 by rw [← Nat.succ_mul]; exact hcase]
      exact Nat.mod_self U64
    have hsub : u64Sub 0 1 = U64 - 1 := by
      unfold u64Sub
      rw [Nat.zero_mod, Nat.mod_eq_of_lt (show 1 < U64 by rw [U64_eq]; omega)]
      exact Nat.mod_eq_of_lt (by rw [U64_eq]; omega)
    rw [hadd, hsub, hcase]
    have hU : 1 < U64 := by rw [U64_eq]; omega
    have hmin : min (U64 - 1) (S - 1) = min U64 S - 1 := by omega
    rw [hmin]
  · have hlt : (i + 1) * Z < U64 := lt_of_le_of_ne hsucc hcase
    have hadd : u64Add (i * Z) Z = (i + 1) * Z := by
      unfold u64Add
      rw [← Nat.succ_mul]
      exact Nat.mod_eq_of_lt hlt
    have hsub : u64Sub ((i + 1) * Z) 1 = (i + 1) * Z - 1 :=
      u64Sub_of_le _ 1 (by rw [Nat.succ_mul]; omega) hlt
    rw [hadd, hsub]
    have hmin : min ((i + 1) * Z - 1) (S - 1) = min ((i + 1) * Z) S - 1 := by
      rw [Nat.succ_mul]
      omega
    rw [hmin]

/-- C7 (amended): for every `u64` content length `S` and segment size
`Z > 0` such that the covered extent `ceil(S/Z) * Z` does not exceed
`2^64` (so the range arithmetic does not wrap — always true for realistic
segment sizes), `fetch_asset` partitions `[0, S)` into exactly `ceil(S/Z)`
contiguous ranges, the `i`-th covering `[i*Z, min((i+1)*Z, S))`, with the
lengths summing to `S`, no gaps and no overlaps; for segment sizes large
enough that `start + segment_size - 1` wraps the partition breaks (see the
counterexample). -/
theorem c7_amended_segment_partition (S Z : Nat) (hZ : 0 < Z) (hS : S < U64)
    (hov : divCeil S Z * Z ≤ U64) :
    (segmentRanges S Z).length = divCeil S Z ∧
    (∀ i, (hi : i < (segmentRanges S Z).length) →
      (segmentRanges S Z)[i].1 = i * Z ∧
      (segmentRanges S Z)[i].2 + 1 = min ((i + 1) * Z) S) ∧
    ((segmentRanges S Z).map fun r => r.2 + 1 - r.1).sum = S := by
  have hlen : (segmentRanges S Z).length = divCeil S Z := by
    simp [segmentRanges]
  have helem : ∀ i, i < divCeil S Z →
      ∀ (hib : i < (segmentRanges S Z).length),
      (segmentRanges S Z)[i] = (i * Z, min ((i + 1) * Z) S - 1) := by
    intro i hi hib
    have h1 := segmentRanges_elem S Z i hZ hS hov hi
    rw [List.getElem?_eq_getElem hib] at h1
    exact Option.some.inj h1
  refine ⟨hlen, ?_, ?_⟩
  · intro i hi
    have hid : i < divCeil S Z := hlen ▸ hi
    have hiS : i * Z < S := (lt_divCeil_iff S Z i hZ).mp hid
    rw [helem i hid hi]
    refine ⟨rfl, ?_⟩
    show min ((i + 1) * Z) S - 1 + 1 = min ((i + 1) * Z) S
    rw [Nat.succ_mul]
    omega
  · have hmaps : ((segmentRanges S Z).map fun r => r.2 + 1 - r.1)
        = (List.range (divCeil S Z)).map fun i => min (i * Z + Z) S - i * Z := by
      apply List.ext_getElem?
      intro i
      rw [List.getElem?_map, List.getElem?_map]
      by_cases hi : i < divCeil S Z
      · have hiS : i * Z < S := (lt_divCeil_iff S Z i hZ).mp hi
        rw [segmentRanges_elem S Z i hZ hS hov hi,
            List.getElem?_range hi]
        rw [Option.map_some', Option.map_some']
        show some (min ((i + 1) * Z) S - 1 + 1 - i * Z)
          = some (min (i * Z + Z) S - i * Z)
        congr 1
        rw [Nat.succ_mul]
        omega
      · have hge : divCeil S Z ≤ i := Nat.le_of_not_lt hi
        rw [List.getElem?_eq_none (by rw [hlen]; exact hge),
            List.getElem?_eq_none (by rw [List.length_range]; exact hge)]
        rfl
    rw [hmaps, segmentSum_aux]
    have := le_divCeil_mul S Z hZ
    omega

/-- Witness for C7 (amended) at `S = 12`, `Z = 5`: three ranges `[0,4]`,
`[5,9]`, `[10,11]` whose lengths sum to 12. -/
theorem c7_amended_segment_partition_witness :
    (0 < 5 ∧ 12 < U64 ∧ divCeil 12 5 * 5 ≤ U64) ∧
    (segmentRanges 12 5).length = divCeil 12 5 ∧
    ((segmentRanges 12 5).map fun r => r.2 + 1 - r.1).sum = 12 ∧
    segmentRanges 12 5 = [(0, 4), (5, 9), (10, 11)] := by
  have h := c7_amended_segment_partition 12 5 (by decide) (by decide) (by decide)
  exact ⟨⟨by decide, by decide, by decide⟩, h.1, h.2.2, by decide⟩

/-- C7 counterexample: at the in-domain u64 inputs `S = 2^64 - 1`,
`Z = 2^63 + 1`, the second range's `start + segment_size - 1` wraps
(release semantics; a debug build panics): the program computes the ranges
`[(0, 2^63), (2^63 + 1, 1)]`, whose second element ends before it starts
instead of covering `[2^63 + 1, 2^64 - 1)`, and the range lengths sum to
`2^63 + 1`, not to `S` — the claimed partition fails. -/
theorem c7_counterexample_segment_overflow :
    segmentRanges (2 ^ 64 - 1) (2 ^ 63 + 1)
      = [(0, 2 ^ 63), (2 ^ 63 + 1, 1)] ∧
    ((segmentRanges (2 ^ 64 - 1) (2 ^ 63 + 1)).map fun r => r.2 + 1 - r.1).sum
      ≠ 2 ^ 64 - 1 := by
  decide

/-- C5 counterexample: with the destination already complete (its size
equal to the remote content length), `fetch_asset` still issues the HEAD
request from which it learns that content length — one network request,
not zero; and when the HEAD advertises no `accept-ranges`, the
already-complete file is not even detected: the simple fallback issues a
resuming GET on top of the HEAD. -/
theorem c5_counterexample_head_is_sent :
    fetchAssetRequests 5242880 ⟨true, some 100⟩ ⟨some 100, [], fun _ => false⟩
      = [NetRequest.head] ∧
    fetchAssetRequests 5242880 ⟨true, some 100⟩ ⟨some 100, [], fun _ => false⟩
      ≠ ([] : List NetRequest) ∧
    fetchAssetRequests 5242880 ⟨false, some 100⟩ ⟨some 100, [], fun _ => false⟩
      = [NetRequest.head, NetRequest.simpleGet (some 100)] := by
  refine ⟨rfl, by decide, rfl⟩

/-- C5 (amended): when the destination already has exactly the remote
content length AND the HEAD response advertises `accept-ranges` and a
content length (without those the fallback path re-downloads), `fetch_asset`
returns success right after the single HEAD request, issuing no download
(GET) request at all. -/
theorem c5_amended_short_circuit (segment_size : Nat) (env : RemoteEnv)
    (dest : DestState) (L : Nat) (har : env.acceptRanges = true)
    (hcl : env.contentLength = some L) (hsize : dest.size = some L) :
    fetchAssetRequests segment_size env dest = [NetRequest.head] := by
  unfold fetchAssetRequests
  rw [har, hcl]
  simp [hsize]

/-- Witness for C5 (amended): a 1000-byte remote with ranges supported and
a complete 1000-byte destination — only the HEAD goes out. -/
theorem c5_amended_short_circuit_witness :
    fetchAssetRequests 5242880 ⟨true, some 1000⟩ ⟨some 1000, [], fun _ => false⟩
      = [NetRequest.head] :=
  c5_amended_short_circuit 5242880 ⟨true, some 1000⟩ ⟨some 1000, [], fun _ => false⟩
    1000 rfl rfl rfl

/-- Witness for C10 at concrete clocks: a past stamp subtracts exactly, a
stamp one second in the future wraps to `2^64 - 1` and both getters miss. -/
theorem c10_ttl_subtraction_guard_witness :
    u64Sub 1200 1000 = 200 ∧
    u64Sub 1000 1001 = U64 - 1 ∧
    (VideoCache.mk [⟨"id1", "t", "https://v", "{}", 1001⟩] 86400).get "https://v" 1000
      = none ∧
    (DownloadCache.mk
        [⟨"h1", "f.mp4", "files/h1.mp4", none, "\"Other\"", none, none, none, none,
          none, none, 7, "video/mp4", 1001⟩] [] 86400 ["files/h1.mp4"] []).get_by_hash
        "h1" 1000
      = none := by
  have hpast := c10_ttl_subtraction_guard 1200 1000 86400
    (by rw [U64_eq]; norm_num) (by rw [U64_eq]; norm_num)
  have hfut := c10_ttl_subtraction_guard 1000 1001 86400
    (by rw [U64_eq]; norm_num) (by rw [U64_eq]; norm_num)
  refine ⟨?_, ?_, ?_, ?_⟩
  · exact (hpast.1 (by norm_num)).1
  · exact (hfut.2.1 (by norm_num)).1
  · exact hfut.2.2.1 _ "https://v" ⟨"id1", "t", "https://v", "{}", 1001⟩ (by decide) rfl rfl
      (by norm_num) (by rw [U64_eq]; norm_num)
  · exact hfut.2.2.2 _ "h1"
      ⟨"h1", "f.mp4", "files/h1.mp4", none, "\"Other\"", none, none, none, none,
        none, none, 7, "video/mp4", 1001⟩ (by decide) rfl rfl
      (by norm_num) (by rw [U64_eq]; norm_num)
